import Mathlib

/-!
Verification development for the content-addressed item-fetching layer
(`src/src/overlay/ItemFetcher.h`): a per-item retry state machine (`Tracker`)
owned by a registry (`ItemFetcher`) that deduplicates fetch requests,
rotates through candidate peers, queues envelopes blocked on an item hash,
replays them on receipt and garbage-collects by ledger slot.

The repository ships only the header (declarations, data members and doc
comments); the implementation file `ItemFetcher.cpp` is not in the source
tree, so the operation bodies below are modelled from the specification
(sections 4.1 Tracker and 4.2 ItemRegistry), on the data members declared in
the header. Network sends, the peer-ask delegate, the two medida meters and
the envelope hand-back to Herder are modelled as an emitted event list.
-/

namespace ItemFetcherSpec

/-- `Hash`: fixed-size digest key, byte-exact equality; modelled opaquely. -/
abbrev Hash : Type := Nat

/-- `Peer::pointer`: an opaque peer handle; modelled opaquely. -/
abbrev Peer : Type := Nat

/-- An `SCPEnvelope` as the core sees it: a slot index (ledger sequence
number used by garbage collection) plus opaque content. -/
structure SCPEnvelope where
  slotIndex : Nat
  body : Nat
deriving DecidableEq

/-- Observable effects of the core: an `AskPeer` delegate invocation, the
`mTryNextPeerReset` meter mark, the `mTryNextPeer` (retry attempt) meter
mark, and an envelope handed back to Herder on `recv`. -/
inductive Event where
  | askPeer (peer : Peer) (hash : Hash)
  | retryReset
  | retryAttempt
  | deliver (hash : Hash) (env : SCPEnvelope)
deriving DecidableEq

/-- The `Tracker` data members declared in the header: the currently awaited
peer `mLastAskedPeer`, the rebuild counter `mNumListRebuild`, the candidate
queue `mPeersToAsk`, whether `mTimer` is armed, the pending list
`mWaitingEnvelopes` of (hash, envelope) pairs, and the tracked `mItemHash`. -/
structure Tracker where
  mItemHash : Hash
  mLastAskedPeer : Option Peer
  mNumListRebuild : Nat
  mPeersToAsk : List Peer
  mTimerArmed : Bool
  mWaitingEnvelopes : List (Hash × SCPEnvelope)
deriving DecidableEq

/-- Modelled from the spec: the `Tracker` constructor — a fresh tracker for
`hash` with no awaited peer, an empty candidate queue, rebuild counter zero,
no armed timer and no pending envelopes. -/
def Tracker.make (hash : Hash) : Tracker :=
  { mItemHash := hash
    mLastAskedPeer := none
    mNumListRebuild := 0
    mPeersToAsk := []
    mTimerArmed := false
    mWaitingEnvelopes := [] }

/-- Modelled from the spec: `Tracker::listen(env)` — append the envelope
(with its slot index) to the pending list. -/
def Tracker.listen (t : Tracker) (env : SCPEnvelope) : Tracker :=
  { t with mWaitingEnvelopes := t.mWaitingEnvelopes ++ [(t.mItemHash, env)] }

/-- Modelled from the spec: `Tracker::clearEnvelopesBelow(slotIndex)` —
remove every pending envelope whose slot index is strictly less than
`slotIndex`; the returned Bool is whether any envelope remains. -/
def Tracker.clearEnvelopesBelow (t : Tracker) (slotIndex : Nat) :
    Bool × Tracker :=
  let remaining :=
    t.mWaitingEnvelopes.filter (fun pe => decide (slotIndex ≤ pe.2.slotIndex))
  (!remaining.isEmpty, { t with mWaitingEnvelopes := remaining })

/-- Modelled from the spec: `Tracker::hasWaitingEnvelopes()` — true iff the
pending list is non-empty. -/
def Tracker.hasWaitingEnvelopes (t : Tracker) : Bool :=
  !t.mWaitingEnvelopes.isEmpty

/-- Modelled from the spec: `Tracker::tryNextPeer()`, the retry core.
Cancel the pending timer; pop the next candidate if the queue is non-empty;
otherwise refill the queue from the application peer set `peerSet`,
increment `mNumListRebuild` and mark the reset meter, going idle (no awaited
peer, no armed timer, no ask) if the refilled queue is still empty; a chosen
peer is recorded as awaited, asked via the delegate, the timer is armed and
the attempt meter marked. -/
def Tracker.tryNextPeer (t : Tracker) (peerSet : List Peer) :
    Tracker × List Event :=
  match t.mPeersToAsk with
  | p :: rest =>
      ({ t with mPeersToAsk := rest
                mLastAskedPeer := some p
                mTimerArmed := true },
       [Event.askPeer p t.mItemHash, Event.retryAttempt])
  | [] =>
      match peerSet with
      | [] =>
          ({ t with mPeersToAsk := []
                    mNumListRebuild := t.mNumListRebuild + 1
                    mLastAskedPeer := none
                    mTimerArmed := false },
           [Event.retryReset])
      | p :: rest =>
          ({ t with mPeersToAsk := rest
                    mNumListRebuild := t.mNumListRebuild + 1
                    mLastAskedPeer := some p
                    mTimerArmed := true },
           [Event.retryReset, Event.askPeer p t.mItemHash,
            Event.retryAttempt])

/-- Modelled from the spec: `Tracker::doesntHave(peer)` — if `peer` is the
currently awaited one, advance to the next candidate via `tryNextPeer`;
otherwise the message is stale and is ignored. -/
def Tracker.doesntHave (t : Tracker) (peer : Peer) (peerSet : List Peer) :
    Tracker × List Event :=
  if t.mLastAskedPeer = some peer then t.tryNextPeer peerSet else (t, [])

/-- Modelled from the spec: expiry of the armed timeout timer (`mTimer`) —
behave exactly as if the awaited peer had responded "don't have it", i.e.
run the same advance-to-next-peer path `tryNextPeer`. -/
def Tracker.timeoutExpiry (t : Tracker) (peerSet : List Peer) :
    Tracker × List Event :=
  t.tryNextPeer peerSet

/-- The `ItemFetcher` data members declared in the header: the map
`mTrackers` from hash to tracker (modelled as an association list with
unique keys) and the shared pending-envelope counter `mItemMapSize`
(shared across all fetchers, so an `Int` with arbitrary start, mutated only
by relative increments and decrements). -/
structure ItemFetcher where
  mTrackers : List (Hash × Tracker)
  mItemMapSize : Int
deriving DecidableEq

/-- First entry of the association list with the given key, as `std::map`
lookup on `mTrackers`. -/
def findTracker : List (Hash × Tracker) → Hash → Option Tracker
  | [], _ => none
  | p :: rest, h => if p.1 = h then some p.2 else findTracker rest h

/-- Replace the value of the first entry with the given key, as mutation
through a `std::map` iterator. -/
def updateTracker : List (Hash × Tracker) → Hash → Tracker →
    List (Hash × Tracker)
  | [], _, _ => []
  | p :: rest, h, t =>
      if p.1 = h then (h, t) :: rest else p :: updateTracker rest h t

/-- The keys of the tracker map. -/
def trackerKeys (l : List (Hash × Tracker)) : List Hash :=
  l.map Prod.fst

/-- A well-formed `std::map`: no duplicate keys. -/
def keysNodup (l : List (Hash × Tracker)) : Prop :=
  (trackerKeys l).Nodup

instance (l : List (Hash × Tracker)) : Decidable (keysNodup l) :=
  List.nodupDecidable (trackerKeys l)

/-- Number of entries for a key (claim I1 speaks of at most one). -/
def countKey (l : List (Hash × Tracker)) (h : Hash) : Nat :=
  l.countP (fun p => decide (p.1 = h))

/-- Total queued-envelope count over a tracker list. -/
def sumEnv (l : List (Hash × Tracker)) : Nat :=
  (l.map (fun p => p.2.mWaitingEnvelopes.length)).sum

/-- Total queued-envelope count across all live trackers of a registry. -/
def ItemFetcher.totalEnvCount (f : ItemFetcher) : Nat :=
  sumEnv f.mTrackers

/-- An `ItemFetcher` with no trackers and a given starting value of the
shared counter. -/
def ItemFetcher.empty (c : Int) : ItemFetcher :=
  { mTrackers := [], mItemMapSize := c }

/-- Modelled from the spec: `ItemFetcher::fetch(hash, envelope)` — if a
tracker for `hash` exists call its `listen(envelope)`, else create a new
tracker, `listen(envelope)` and immediately drive its first retry step
(`tryNextPeer` with the application peer set); either way increment the
shared counter by one. -/
def ItemFetcher.fetch (f : ItemFetcher) (peerSet : List Peer)
    (itemHash : Hash) (envelope : SCPEnvelope) : ItemFetcher × List Event :=
  match findTracker f.mTrackers itemHash with
  | some t =>
      ({ mTrackers := updateTracker f.mTrackers itemHash (t.listen envelope)
         mItemMapSize := f.mItemMapSize + 1 }, [])
  | none =>
      let r := ((Tracker.make itemHash).listen envelope).tryNextPeer peerSet
      ({ mTrackers := (itemHash, r.1) :: f.mTrackers
         mItemMapSize := f.mItemMapSize + 1 }, r.2)

/-- Modelled from the spec: `ItemFetcher::isFetching(hash)` — true iff a
tracker for `hash` is registered. -/
def ItemFetcher.isFetching (f : ItemFetcher) (itemHash : Hash) : Bool :=
  (findTracker f.mTrackers itemHash).isSome

/-- Modelled from the spec: `ItemFetcher::doesntHave(hash, peer)` — route to
the tracker for `hash` if any; no-op if none exists. -/
def ItemFetcher.doesntHave (f : ItemFetcher) (peerSet : List Peer)
    (itemHash : Hash) (peer : Peer) : ItemFetcher × List Event :=
  match findTracker f.mTrackers itemHash with
  | some t =>
      let r := t.doesntHave peer peerSet
      ({ f with mTrackers := updateTracker f.mTrackers itemHash r.1 }, r.2)
  | none => (f, [])

/-- Modelled from the spec: `ItemFetcher::recv(hash)` — if a tracker for
`hash` exists, hand every pending envelope back (in queue order) for
reprocessing, destroy the tracker and decrement the shared counter by the
number of envelopes it held; no-op otherwise. -/
def ItemFetcher.recv (f : ItemFetcher) (itemHash : Hash) :
    ItemFetcher × List Event :=
  match findTracker f.mTrackers itemHash with
  | some t =>
      ({ mTrackers := f.mTrackers.filter (fun p => !decide (p.1 = itemHash))
         mItemMapSize :=
           f.mItemMapSize - (t.mWaitingEnvelopes.length : Int) },
       t.mWaitingEnvelopes.map (fun pe => Event.deliver pe.1 pe.2))
  | none => (f, [])

/-- Modelled from the spec: `ItemFetcher::stopFetchingBelow(slotIndex)` —
for every tracker call `clearEnvelopesBelow(slotIndex)`, destroy any tracker
that reports no remaining envelope, and decrement the shared counter by the
number of envelopes dropped (keeping invariant I4: the counter always equals
the sum of queued-envelope counts across live trackers). -/
def ItemFetcher.stopFetchingBelow (f : ItemFetcher) (slotIndex : Nat) :
    ItemFetcher :=
  let cleared :=
    f.mTrackers.map (fun p => (p.1, (p.2.clearEnvelopesBelow slotIndex).2))
  let kept := cleared.filter (fun p => p.2.hasWaitingEnvelopes)
  { mTrackers := kept
    mItemMapSize :=
      f.mItemMapSize - ((sumEnv f.mTrackers : Int) - (sumEnv kept : Int)) }

/-- A registry operation, for reasoning about arbitrary call sequences. -/
inductive Op where
  | fetch (peerSet : List Peer) (hash : Hash) (env : SCPEnvelope)
  | recv (hash : Hash)
  | stopFetchingBelow (slotIndex : Nat)
  | doesntHave (peerSet : List Peer) (hash : Hash) (peer : Peer)
deriving DecidableEq

/-- Apply one registry operation (state part). -/
def ItemFetcher.applyOp (f : ItemFetcher) : Op → ItemFetcher
  | Op.fetch ps h e => (f.fetch ps h e).1
  | Op.recv h => (f.recv h).1
  | Op.stopFetchingBelow s => f.stopFetchingBelow s
  | Op.doesntHave ps h p => (f.doesntHave ps h p).1

/-- Run a sequence of registry operations. -/
def ItemFetcher.runOps (f : ItemFetcher) : List Op → ItemFetcher
  | [] => f
  | op :: ops => (f.applyOp op).runOps ops

/-- Peers named by `askPeer` events, in order. -/
def askedPeers (evs : List Event) : List Peer :=
  evs.filterMap (fun e =>
    match e with
    | Event.askPeer p _ => some p
    | _ => none)

/-- Feed `n` negative responses, each naming the currently awaited peer;
stop early if the tracker has no awaited peer. -/
def feedNegatives (peerSet : List Peer) : Nat → Tracker → Tracker × List Event
  | 0, t => (t, [])
  | n + 1, t =>
      match t.mLastAskedPeer with
      | some p =>
          let r := t.doesntHave p peerSet
          let r2 := feedNegatives peerSet n r.1
          (r2.1, r.2 ++ r2.2)
      | none => (t, [])

/-- Last element of a list, defaulting to `d` on the empty list. -/
def lastOr (d : Peer) : List Peer → Peer
  | [] => d
  | p :: rest => lastOr p rest

/-! ### Tracker-level helper lemmas -/

theorem tryNextPeer_waiting (t : Tracker) (ps : List Peer) :
    ((t.tryNextPeer ps).1).mWaitingEnvelopes = t.mWaitingEnvelopes := by
  unfold Tracker.tryNextPeer
  cases t.mPeersToAsk <;> cases ps <;> rfl

theorem tryNextPeer_hash (t : Tracker) (ps : List Peer) :
    ((t.tryNextPeer ps).1).mItemHash = t.mItemHash := by
  unfold Tracker.tryNextPeer
  cases t.mPeersToAsk <;> cases ps <;> rfl

theorem doesntHave_waiting (t : Tracker) (p : Peer) (ps : List Peer) :
    ((t.doesntHave p ps).1).mWaitingEnvelopes = t.mWaitingEnvelopes := by
  unfold Tracker.doesntHave
  split
  · exact tryNextPeer_waiting t ps
  · rfl

theorem listen_length (t : Tracker) (e : SCPEnvelope) :
    (t.listen e).mWaitingEnvelopes.length =
      t.mWaitingEnvelopes.length + 1 := by
  simp [Tracker.listen]

/-! ### Association-list lemmas for the tracker map -/

theorem trackerKeys_cons (p : Hash × Tracker) (l : List (Hash × Tracker)) :
    trackerKeys (p :: l) = p.1 :: trackerKeys l := rfl

theorem findTracker_eq_none_iff (l : List (Hash × Tracker)) (h : Hash) :
    findTracker l h = none ↔ h ∉ trackerKeys l := by
  induction l with
  | nil => simp [findTracker, trackerKeys]
  | cons p rest ih =>
      by_cases hp : p.1 = h
      · simp [findTracker, hp, trackerKeys]
      · have hne : ¬ h = p.1 := fun hh => hp hh.symm
        simp [findTracker, hp, trackerKeys, ih, hne]

theorem trackerKeys_update (l : List (Hash × Tracker)) (h : Hash)
    (t : Tracker) : trackerKeys (updateTracker l h t) = trackerKeys l := by
  induction l with
  | nil => rfl
  | cons p rest ih =>
      by_cases hp : p.1 = h
      · simp [updateTracker, hp, trackerKeys_cons]
      · simp [updateTracker, hp, trackerKeys_cons, ih]

theorem updateTracker_self (l : List (Hash × Tracker)) (h : Hash)
    (t : Tracker) (hf : findTracker l h = some t) :
    updateTracker l h t = l := by
  induction l with
  | nil => simp [findTracker] at hf
  | cons p rest ih =>
      obtain ⟨a, b⟩ := p
      by_cases hp : a = h
      · subst hp
        simp [findTracker] at hf
        simp [updateTracker, hf]
      · simp [findTracker, hp] at hf
        simp [updateTracker, hp, ih hf]

theorem findTracker_update_found (l : List (Hash × Tracker)) (h : Hash)
    (t t' : Tracker) (hf : findTracker l h = some t) :
    findTracker (updateTracker l h t') h = some t' := by
  induction l with
  | nil => simp [findTracker] at hf
  | cons p rest ih =>
      obtain ⟨a, b⟩ := p
      by_cases hp : a = h
      · simp [updateTracker, hp, findTracker]
      · simp [findTracker, hp] at hf
        simp [updateTracker, hp, findTracker, ih hf]

theorem findTracker_update_ne (l : List (Hash × Tracker)) (h h' : Hash)
    (t' : Tracker) (hne : h' ≠ h) :
    findTracker (updateTracker l h t') h' = findTracker l h' := by
  induction l with
  | nil => rfl
  | cons p rest ih =>
      obtain ⟨a, b⟩ := p
      by_cases hp : a = h
      · subst hp
        have hne' : ¬ (a = h') := fun hh => hne hh.symm
        simp [updateTracker, findTracker, hne']
      · by_cases hp' : a = h'
        · simp [updateTracker, hp, findTracker, hp', hne]
        · simp [updateTracker, hp, findTracker, hp', ih]

theorem sumEnv_nil : sumEnv [] = 0 := rfl

theorem sumEnv_cons (p : Hash × Tracker) (l : List (Hash × Tracker)) :
    sumEnv (p :: l) = p.2.mWaitingEnvelopes.length + sumEnv l := by
  simp [sumEnv]

theorem sumEnv_update (l : List (Hash × Tracker)) (h : Hash)
    (t t' : Tracker) (hf : findTracker l h = some t) :
    sumEnv (updateTracker l h t') + t.mWaitingEnvelopes.length =
      sumEnv l + t'.mWaitingEnvelopes.length := by
  induction l with
  | nil => simp [findTracker] at hf
  | cons p rest ih =>
      obtain ⟨a, b⟩ := p
      by_cases hp : a = h
      · subst hp
        simp [findTracker] at hf
        simp [updateTracker, sumEnv_cons, hf]
        omega
      · simp [findTracker, hp] at hf
        simp only [updateTracker, if_neg hp, sumEnv_cons]
        have := ih hf
        omega

theorem filter_key_ne_of_not_mem (l : List (Hash × Tracker)) (h : Hash)
    (hn : h ∉ trackerKeys l) :
    l.filter (fun p => !decide (p.1 = h)) = l := by
  induction l with
  | nil => rfl
  | cons p rest ih =>
      simp [trackerKeys_cons] at hn
      have hp : ¬ p.1 = h := fun hh => hn.1 hh.symm
      simp [List.filter_cons, hp, ih hn.2]

theorem findTracker_filter_self (l : List (Hash × Tracker)) (h : Hash) :
    findTracker (l.filter (fun p => !decide (p.1 = h))) h = none := by
  induction l with
  | nil => rfl
  | cons p rest ih =>
      by_cases hp : p.1 = h
      · simp [List.filter_cons, hp, ih]
      · simp [List.filter_cons, hp, findTracker, ih]

theorem findTracker_filter_ne (l : List (Hash × Tracker)) (h h' : Hash)
    (hne : h' ≠ h) :
    findTracker (l.filter (fun p => !decide (p.1 = h))) h' =
      findTracker l h' := by
  induction l with
  | nil => rfl
  | cons p rest ih =>
      obtain ⟨a, b⟩ := p
      by_cases hp : a = h
      · subst hp
        have hne' : ¬ (a = h') := fun hh => hne hh.symm
        simp [List.filter_cons, findTracker, hne', ih]
      · by_cases hp' : a = h'
        · simp [List.filter_cons, hp, findTracker, hp', hne]
        · simp [List.filter_cons, hp, findTracker, hp', ih]

theorem sumEnv_filter_out (l : List (Hash × Tracker)) (h : Hash)
    (t : Tracker) (hnd : keysNodup l) (hf : findTracker l h = some t) :
    sumEnv (l.filter (fun p => !decide (p.1 = h))) +
      t.mWaitingEnvelopes.length = sumEnv l := by
  induction l with
  | nil => simp [findTracker] at hf
  | cons p rest ih =>
      obtain ⟨a, b⟩ := p
      have hnd2 : ((a, b).1 :: trackerKeys rest).Nodup := by
        rw [← trackerKeys_cons]; exact hnd
      have hhead : a ∉ trackerKeys rest := (List.nodup_cons.mp hnd2).1
      have hnd' : keysNodup rest := (List.nodup_cons.mp hnd2).2
      by_cases hp : a = h
      · subst hp
        simp [findTracker] at hf
        have hrest : rest.filter (fun p => !decide (p.1 = a)) = rest :=
          filter_key_ne_of_not_mem rest a hhead
        simp [List.filter_cons, hrest, sumEnv_cons, hf]
        omega
      · simp [findTracker, hp] at hf
        have ihh := ih hnd' hf
        have hcond : (!decide (((a, b) : Hash × Tracker).1 = h)) = true := by
          simp [hp]
        rw [List.filter_cons, if_pos hcond, sumEnv_cons, sumEnv_cons]
        omega

theorem countKey_cons (p : Hash × Tracker) (l : List (Hash × Tracker))
    (h : Hash) :
    countKey (p :: l) h = countKey l h + (if p.1 = h then 1 else 0) := by
  simp [countKey, List.countP_cons]

theorem countKey_eq_zero_of_not_mem (l : List (Hash × Tracker)) (h : Hash)
    (hn : h ∉ trackerKeys l) : countKey l h = 0 := by
  induction l with
  | nil => rfl
  | cons p rest ih =>
      rw [trackerKeys_cons] at hn
      simp only [List.mem_cons, not_or] at hn
      have hp : ¬ p.1 = h := fun hh => hn.1 hh.symm
      simp [countKey_cons, hp, ih hn.2]

theorem countKey_eq_one (l : List (Hash × Tracker)) (h : Hash) (t : Tracker)
    (hnd : keysNodup l) (hf : findTracker l h = some t) :
    countKey l h = 1 := by
  induction l with
  | nil => simp [findTracker] at hf
  | cons p rest ih =>
      have hnd2 : (p.1 :: trackerKeys rest).Nodup := by
        rw [← trackerKeys_cons]; exact hnd
      have hhead : p.1 ∉ trackerKeys rest := (List.nodup_cons.mp hnd2).1
      have hnd' : keysNodup rest := (List.nodup_cons.mp hnd2).2
      by_cases hp : p.1 = h
      · have hz : countKey rest h = 0 :=
          countKey_eq_zero_of_not_mem rest h (hp ▸ hhead)
        simp [countKey_cons, hp, hz]
      · simp [findTracker, hp] at hf
        simp [countKey_cons, hp, ih hnd' hf]

theorem countKey_le_one (l : List (Hash × Tracker)) (h : Hash)
    (hnd : keysNodup l) : countKey l h ≤ 1 := by
  cases hf : findTracker l h with
  | none =>
      have := (findTracker_eq_none_iff l h).mp hf
      simp [countKey_eq_zero_of_not_mem l h this]
  | some t => simp [countKey_eq_one l h t hnd hf]

theorem keysNodup_filter (l : List (Hash × Tracker))
    (P : Hash × Tracker → Bool) (hnd : keysNodup l) :
    keysNodup (l.filter P) := by
  have h1 : List.Sublist (l.filter P) l := List.filter_sublist l
  have h2 : List.Sublist (trackerKeys (l.filter P)) (trackerKeys l) :=
    List.Sublist.map Prod.fst h1
  exact List.Nodup.sublist h2 hnd

/-! ### Garbage-collection structural lemmas -/

/-- The tracker list left by one GC pass: clear every tracker, keep those
still reporting a waiting envelope. -/
def gcKept (l : List (Hash × Tracker)) (s : Nat) : List (Hash × Tracker) :=
  (l.map (fun p => (p.1, (p.2.clearEnvelopesBelow s).2))).filter
    (fun p => p.2.hasWaitingEnvelopes)

theorem stopFetchingBelow_trackers (f : ItemFetcher) (s : Nat) :
    (f.stopFetchingBelow s).mTrackers = gcKept f.mTrackers s := rfl

theorem stopFetchingBelow_counter (f : ItemFetcher) (s : Nat) :
    (f.stopFetchingBelow s).mItemMapSize =
      f.mItemMapSize -
        ((sumEnv f.mTrackers : Int) - (sumEnv (gcKept f.mTrackers s) : Int)) :=
  rfl

theorem trackerKeys_map_clear (l : List (Hash × Tracker)) (s : Nat) :
    trackerKeys (l.map (fun p => (p.1, (p.2.clearEnvelopesBelow s).2))) =
      trackerKeys l := by
  simp [trackerKeys, List.map_map]

theorem gcKept_keys_sublist (l : List (Hash × Tracker)) (s : Nat) :
    List.Sublist (trackerKeys (gcKept l s)) (trackerKeys l) := by
  have h1 : List.Sublist (gcKept l s)
      (l.map (fun p => (p.1, (p.2.clearEnvelopesBelow s).2))) :=
    List.filter_sublist _
  have h3 : List.Sublist (trackerKeys (gcKept l s))
      (trackerKeys (l.map (fun p => (p.1, (p.2.clearEnvelopesBelow s).2)))) :=
    List.Sublist.map Prod.fst h1
  rwa [trackerKeys_map_clear] at h3

theorem keysNodup_gcKept (l : List (Hash × Tracker)) (s : Nat)
    (hnd : keysNodup l) : keysNodup (gcKept l s) :=
  List.Nodup.sublist (gcKept_keys_sublist l s) hnd

theorem findTracker_gcKept_none (l : List (Hash × Tracker)) (s : Nat)
    (h : Hash) (hn : h ∉ trackerKeys l) :
    findTracker (gcKept l s) h = none := by
  rw [findTracker_eq_none_iff]
  exact fun hm => hn ((gcKept_keys_sublist l s).subset hm)

theorem findTracker_gcKept (l : List (Hash × Tracker)) (s : Nat) (h : Hash)
    (t : Tracker) (hnd : keysNodup l) (hf : findTracker l h = some t) :
    findTracker (gcKept l s) h =
      (if ((t.clearEnvelopesBelow s).2).hasWaitingEnvelopes
       then some (t.clearEnvelopesBelow s).2 else none) := by
  induction l with
  | nil => simp [findTracker] at hf
  | cons p rest ih =>
      obtain ⟨a, b⟩ := p
      have hnd2 : ((a, b).1 :: trackerKeys rest).Nodup := by
        rw [← trackerKeys_cons]; exact hnd
      have hhead : a ∉ trackerKeys rest := (List.nodup_cons.mp hnd2).1
      have hnd' : keysNodup rest := (List.nodup_cons.mp hnd2).2
      by_cases hp : a = h
      · subst hp
        simp [findTracker] at hf
        subst hf
        by_cases hw : ((b.clearEnvelopesBelow s).2).hasWaitingEnvelopes
        · simp [gcKept, List.filter_cons, hw, findTracker]
        · simp only [gcKept, List.map_cons, List.filter_cons]
          rw [if_neg (by simpa using hw)]
          have := findTracker_gcKept_none rest s a hhead
          simp only [gcKept] at this
          simp [this, hw]
      · simp [findTracker, hp] at hf
        have ihh := ih hnd' hf
        by_cases hw : ((b.clearEnvelopesBelow s).2).hasWaitingEnvelopes
        · simp only [gcKept, List.map_cons, List.filter_cons] at ihh ⊢
          rw [if_pos (by simpa using hw)]
          simp [findTracker, hp, ihh]
        · simp only [gcKept, List.map_cons, List.filter_cons] at ihh ⊢
          rw [if_neg (by simpa using hw)]
          exact ihh

/-! ### Operation-level invariant lemmas -/

/-- Difference between the shared counter and this registry's own
queued-envelope total; constant along any run of the registry. -/
def ItemFetcher.drift (f : ItemFetcher) : Int :=
  f.mItemMapSize - (f.totalEnvCount : Int)

theorem applyOp_keysNodup (f : ItemFetcher) (op : Op)
    (hnd : keysNodup f.mTrackers) : keysNodup (f.applyOp op).mTrackers := by
  cases op with
  | fetch ps h e =>
      cases hf : findTracker f.mTrackers h with
      | some t =>
          simp only [ItemFetcher.applyOp, ItemFetcher.fetch, hf]
          unfold keysNodup
          rw [trackerKeys_update]
          exact hnd
      | none =>
          simp only [ItemFetcher.applyOp, ItemFetcher.fetch, hf]
          unfold keysNodup
          rw [trackerKeys_cons]
          exact List.nodup_cons.mpr ⟨(findTracker_eq_none_iff _ _).mp hf, hnd⟩
  | recv h =>
      cases hf : findTracker f.mTrackers h with
      | some t =>
          simp only [ItemFetcher.applyOp, ItemFetcher.recv, hf]
          exact keysNodup_filter _ _ hnd
      | none =>
          simpa only [ItemFetcher.applyOp, ItemFetcher.recv, hf] using hnd
  | stopFetchingBelow s =>
      show keysNodup (f.stopFetchingBelow s).mTrackers
      rw [stopFetchingBelow_trackers]
      exact keysNodup_gcKept _ _ hnd
  | doesntHave ps h p =>
      cases hf : findTracker f.mTrackers h with
      | some t =>
          simp only [ItemFetcher.applyOp, ItemFetcher.doesntHave, hf]
          unfold keysNodup
          rw [trackerKeys_update]
          exact hnd
      | none =>
          simpa only [ItemFetcher.applyOp, ItemFetcher.doesntHave, hf]
            using hnd

theorem applyOp_drift (f : ItemFetcher) (op : Op)
    (hnd : keysNodup f.mTrackers) :
    (f.applyOp op).drift = f.drift := by
  cases op with
  | fetch ps h e =>
      cases hf : findTracker f.mTrackers h with
      | some t =>
          have hs := sumEnv_update f.mTrackers h t (t.listen e) hf
          rw [listen_length] at hs
          simp only [ItemFetcher.applyOp, ItemFetcher.fetch, hf,
            ItemFetcher.drift, ItemFetcher.totalEnvCount]
          omega
      | none =>
          have hw := tryNextPeer_waiting ((Tracker.make h).listen e) ps
          have hlen : (((Tracker.make h).listen e).tryNextPeer
              ps).1.mWaitingEnvelopes.length = 1 := by
            rw [hw]; rfl
          simp only [ItemFetcher.applyOp, ItemFetcher.fetch, hf,
            ItemFetcher.drift, ItemFetcher.totalEnvCount, sumEnv_cons, hlen]
          omega
  | recv h =>
      cases hf : findTracker f.mTrackers h with
      | some t =>
          have hs := sumEnv_filter_out f.mTrackers h t hnd hf
          simp only [ItemFetcher.applyOp, ItemFetcher.recv, hf,
            ItemFetcher.drift, ItemFetcher.totalEnvCount]
          omega
      | none =>
          simp only [ItemFetcher.applyOp, ItemFetcher.recv, hf]
  | stopFetchingBelow s =>
      show (f.stopFetchingBelow s).drift = f.drift
      simp only [ItemFetcher.drift, ItemFetcher.totalEnvCount,
        stopFetchingBelow_trackers, stopFetchingBelow_counter]
      omega
  | doesntHave ps h p =>
      cases hf : findTracker f.mTrackers h with
      | some t =>
          have hlen : ((t.doesntHave p ps).1).mWaitingEnvelopes.length =
              t.mWaitingEnvelopes.length := by
            rw [doesntHave_waiting]
          have hs := sumEnv_update f.mTrackers h t (t.doesntHave p ps).1 hf
          rw [hlen] at hs
          simp only [ItemFetcher.applyOp, ItemFetcher.doesntHave, hf,
            ItemFetcher.drift, ItemFetcher.totalEnvCount]
          omega
      | none =>
          simp only [ItemFetcher.applyOp, ItemFetcher.doesntHave, hf]

theorem runOps_keysNodup (ops : List Op) (f : ItemFetcher)
    (hnd : keysNodup f.mTrackers) : keysNodup (f.runOps ops).mTrackers := by
  induction ops generalizing f with
  | nil => exact hnd
  | cons op ops ih => exact ih _ (applyOp_keysNodup f op hnd)

theorem runOps_drift (ops : List Op) (f : ItemFetcher)
    (hnd : keysNodup f.mTrackers) : (f.runOps ops).drift = f.drift := by
  induction ops generalizing f with
  | nil => rfl
  | cons op ops ih =>
      exact (ih (f.applyOp op) (applyOp_keysNodup f op hnd)).trans
        (applyOp_drift f op hnd)

theorem applyOp_shift (f : ItemFetcher) (op : Op) (c : Int) :
    ItemFetcher.applyOp { f with mItemMapSize := f.mItemMapSize + c } op =
      { f.applyOp op with
          mItemMapSize := (f.applyOp op).mItemMapSize + c } := by
  cases op with
  | fetch ps h e =>
      cases hf : findTracker f.mTrackers h with
      | some t =>
          simp only [ItemFetcher.applyOp, ItemFetcher.fetch, hf,
            ItemFetcher.mk.injEq]
          exact ⟨trivial, by omega⟩
      | none =>
          simp only [ItemFetcher.applyOp, ItemFetcher.fetch, hf,
            ItemFetcher.mk.injEq]
          exact ⟨trivial, by omega⟩
  | recv h =>
      cases hf : findTracker f.mTrackers h with
      | some t =>
          simp only [ItemFetcher.applyOp, ItemFetcher.recv, hf,
            ItemFetcher.mk.injEq]
          exact ⟨trivial, by omega⟩
      | none =>
          simp only [ItemFetcher.applyOp, ItemFetcher.recv, hf]
  | stopFetchingBelow s =>
      show ItemFetcher.stopFetchingBelow _ s =
        { f.stopFetchingBelow s with
            mItemMapSize := (f.stopFetchingBelow s).mItemMapSize + c }
      simp only [ItemFetcher.stopFetchingBelow, ItemFetcher.mk.injEq]
      exact ⟨trivial, by omega⟩
  | doesntHave ps h p =>
      cases hf : findTracker f.mTrackers h with
      | some t =>
          simp only [ItemFetcher.applyOp, ItemFetcher.doesntHave, hf]
      | none =>
          simp only [ItemFetcher.applyOp, ItemFetcher.doesntHave, hf]

theorem runOps_shift (ops : List Op) (f : ItemFetcher) (c : Int) :
    ItemFetcher.runOps { f with mItemMapSize := f.mItemMapSize + c } ops =
      { f.runOps ops with
          mItemMapSize := (f.runOps ops).mItemMapSize + c } := by
  induction ops generalizing f with
  | nil => rfl
  | cons op ops ih =>
      show ItemFetcher.runOps
        (ItemFetcher.applyOp { f with mItemMapSize := f.mItemMapSize + c } op)
        ops = _
      rw [applyOp_shift]
      exact ih (f.applyOp op)

theorem doesntHave_not_current (t : Tracker) (p : Peer) (ps : List Peer)
    (hne : t.mLastAskedPeer ≠ some p) : t.doesntHave p ps = (t, []) := by
  unfold Tracker.doesntHave
  rw [if_neg hne]

theorem tryNextPeer_idle_timer (t : Tracker) (ps : List Peer)
    (hidle : ((t.tryNextPeer ps).1).mLastAskedPeer = none) :
    ((t.tryNextPeer ps).1).mTimerArmed = false := by
  obtain ⟨ih, la, nr, pta, ta, we⟩ := t
  cases pta with
  | cons q rest => simp [Tracker.tryNextPeer] at hidle
  | nil =>
      cases ps with
      | nil => simp [Tracker.tryNextPeer]
      | cons q rest => simp [Tracker.tryNextPeer] at hidle

theorem askedPeers_append (a b : List Event) :
    askedPeers (a ++ b) = askedPeers a ++ askedPeers b := by
  simp [askedPeers]

/-! ### Claim theorems -/

/-- C1: for a live tracker for `H` holding queued envelopes in queue order,
`recv H` hands exactly those envelopes back, once each and in order, then
destroys the tracker (`isFetching H` is false afterwards), decrements the
shared counter by their number, and leaves every other tracker untouched. -/
theorem recv_replays_in_order_and_destroys (f : ItemFetcher) (H : Hash)
    (t : Tracker) (hf : findTracker f.mTrackers H = some t) :
    (f.recv H).2 =
      t.mWaitingEnvelopes.map (fun pe => Event.deliver pe.1 pe.2) ∧
    (f.recv H).1.isFetching H = false ∧
    (f.recv H).1.mItemMapSize =
      f.mItemMapSize - (t.mWaitingEnvelopes.length : Int) ∧
    (∀ H', H' ≠ H →
      findTracker (f.recv H).1.mTrackers H' = findTracker f.mTrackers H') := by
  refine ⟨?_, ?_, ?_, ?_⟩
  · simp [ItemFetcher.recv, hf]
  · simp [ItemFetcher.recv, hf, ItemFetcher.isFetching,
      findTracker_filter_self]
  · simp [ItemFetcher.recv, hf]
  · intro H' hne
    simp only [ItemFetcher.recv, hf]
    exact findTracker_filter_ne f.mTrackers H H' hne

/-- C1 witness: a registry with two envelopes queued under hash 5; `recv 5`
delivers both in order, destroys the tracker and decrements the counter. -/
theorem recv_replays_in_order_and_destroys_witness :
    (findTracker (ItemFetcher.mk
        [(5, Tracker.mk 5 none 0 [] false
            [(5, ⟨1, 10⟩), (5, ⟨2, 20⟩)])] 2).mTrackers 5 =
      some (Tracker.mk 5 none 0 [] false [(5, ⟨1, 10⟩), (5, ⟨2, 20⟩)])) ∧
    ((ItemFetcher.mk
        [(5, Tracker.mk 5 none 0 [] false
            [(5, ⟨1, 10⟩), (5, ⟨2, 20⟩)])] 2).recv 5).2 =
      [Event.deliver 5 ⟨1, 10⟩, Event.deliver 5 ⟨2, 20⟩] ∧
    ((ItemFetcher.mk
        [(5, Tracker.mk 5 none 0 [] false
            [(5, ⟨1, 10⟩), (5, ⟨2, 20⟩)])] 2).recv 5).1.isFetching 5 =
      false ∧
    ((ItemFetcher.mk
        [(5, Tracker.mk 5 none 0 [] false
            [(5, ⟨1, 10⟩), (5, ⟨2, 20⟩)])] 2).recv 5).1.mItemMapSize = 0 := by
  have h := recv_replays_in_order_and_destroys
    (ItemFetcher.mk
      [(5, Tracker.mk 5 none 0 [] false [(5, ⟨1, 10⟩), (5, ⟨2, 20⟩)])] 2)
    5 (Tracker.mk 5 none 0 [] false [(5, ⟨1, 10⟩), (5, ⟨2, 20⟩)])
    (by decide)
  exact ⟨by decide, by simpa using h.1, h.2.1, by simpa using h.2.2.1⟩

/-- The tracker registered for `H` right after a `fetch` for `H`. -/
theorem fetch_findTracker (f : ItemFetcher) (ps : List Peer) (H : Hash)
    (e : SCPEnvelope) :
    findTracker ((f.fetch ps H e).1).mTrackers H =
      some (match findTracker f.mTrackers H with
            | some t => t.listen e
            | none => (((Tracker.make H).listen e).tryNextPeer ps).1) := by
  cases hf : findTracker f.mTrackers H with
  | some t =>
      simp only [ItemFetcher.fetch, hf]
      exact findTracker_update_found f.mTrackers H t (t.listen e) hf
  | none =>
      simp [ItemFetcher.fetch, hf, findTracker]

/-- C2: at most one tracker per hash ever exists: a second `fetch` for the
same hash merely appends to the existing tracker's pending list, emits no
event (in particular no new peer-ask), leaves exactly one tracker for `H`,
and along every operation sequence every hash has at most one tracker. -/
theorem fetch_dedup_single_tracker (f : ItemFetcher) (ps1 ps2 : List Peer)
    (H : Hash) (e1 e2 : SCPEnvelope) (hnd : keysNodup f.mTrackers) :
    countKey ((((f.fetch ps1 H e1).1).fetch ps2 H e2).1).mTrackers H = 1 ∧
    (((f.fetch ps1 H e1).1).fetch ps2 H e2).2 = [] ∧
    (∃ t1, findTracker ((f.fetch ps1 H e1).1).mTrackers H = some t1 ∧
      findTracker ((((f.fetch ps1 H e1).1).fetch ps2 H e2).1).mTrackers H =
        some (t1.listen e2)) ∧
    (∀ ops : List Op, ∀ H' : Hash,
      countKey ((f.runOps ops).mTrackers) H' ≤ 1) := by
  have hnd1 : keysNodup ((f.fetch ps1 H e1).1).mTrackers :=
    applyOp_keysNodup f (Op.fetch ps1 H e1) hnd
  have hnd2 : keysNodup ((((f.fetch ps1 H e1).1).fetch ps2 H e2).1).mTrackers :=
    applyOp_keysNodup ((f.fetch ps1 H e1).1) (Op.fetch ps2 H e2) hnd1
  have h1 := fetch_findTracker f ps1 H e1
  have key : ∀ (g : ItemFetcher) (qs : List Peer) (e : SCPEnvelope)
      (u : Tracker), findTracker g.mTrackers H = some u →
      (g.fetch qs H e).2 = [] ∧
      findTracker ((g.fetch qs H e).1).mTrackers H = some (u.listen e) := by
    intro g qs e u hfu
    refine ⟨?_, ?_⟩
    · simp only [ItemFetcher.fetch, hfu]
    · simp only [ItemFetcher.fetch, hfu]
      exact findTracker_update_found g.mTrackers H u (u.listen e) hfu
  obtain ⟨hev, h2⟩ := key ((f.fetch ps1 H e1).1) ps2 e2 _ h1
  refine ⟨countKey_eq_one _ H _ hnd2 h2, hev, ⟨_, h1, h2⟩, ?_⟩
  intro ops H'
  exact countKey_le_one _ H' (runOps_keysNodup ops f hnd)

/-- C2 witness: two fetches of hash 3 on an initially empty registry leave
exactly one tracker for hash 3 and the second fetch emits nothing. -/
theorem fetch_dedup_single_tracker_witness :
    keysNodup (ItemFetcher.empty 0).mTrackers ∧
    countKey (((((ItemFetcher.empty 0).fetch [1, 2] 3 ⟨1, 0⟩).1).fetch
      [1, 2] 3 ⟨2, 0⟩).1).mTrackers 3 = 1 ∧
    ((((ItemFetcher.empty 0).fetch [1, 2] 3 ⟨1, 0⟩).1).fetch
      [1, 2] 3 ⟨2, 0⟩).2 = [] := by
  have h := fetch_dedup_single_tracker (ItemFetcher.empty 0) [1, 2] [1, 2]
    3 ⟨1, 0⟩ ⟨2, 0⟩ (by decide)
  exact ⟨by decide, h.1, h.2.1⟩

/-- C5: a `doesntHave` naming a peer other than the currently awaited one
changes nothing: the tracker is returned unchanged with no event, and at the
registry level the whole state is unchanged with no event. -/
theorem stale_doesntHave_noop (f : ItemFetcher) (ps : List Peer) (H : Hash)
    (t : Tracker) (p1 p2 : Peer) (hf : findTracker f.mTrackers H = some t)
    (hcur : t.mLastAskedPeer = some p2) (hne : p1 ≠ p2) :
    t.doesntHave p1 ps = (t, []) ∧ f.doesntHave ps H p1 = (f, []) := by
  have h1 : t.doesntHave p1 ps = (t, []) := by
    apply doesntHave_not_current
    rw [hcur]
    intro hcontra
    exact hne (Option.some.inj hcontra).symm
  refine ⟨h1, ?_⟩
  simp only [ItemFetcher.doesntHave, hf, h1]
  rw [updateTracker_self f.mTrackers H t hf]

/-- C5 witness: a tracker awaiting peer 2 ignores a stale `doesntHave` for
peer 1, at both the tracker and the registry level. -/
theorem stale_doesntHave_noop_witness :
    (findTracker (ItemFetcher.mk
        [(4, Tracker.mk 4 (some 2) 1 [3] true [(4, ⟨1, 0⟩)])] 1).mTrackers 4 =
      some (Tracker.mk 4 (some 2) 1 [3] true [(4, ⟨1, 0⟩)])) ∧
    (Tracker.mk 4 (some 2) 1 [3] true [(4, ⟨1, 0⟩)]).doesntHave 1 [1, 2, 3] =
      (Tracker.mk 4 (some 2) 1 [3] true [(4, ⟨1, 0⟩)], []) ∧
    (ItemFetcher.mk
        [(4, Tracker.mk 4 (some 2) 1 [3] true [(4, ⟨1, 0⟩)])] 1).doesntHave
        [1, 2, 3] 4 1 =
      (ItemFetcher.mk
        [(4, Tracker.mk 4 (some 2) 1 [3] true [(4, ⟨1, 0⟩)])] 1, []) := by
  have h := stale_doesntHave_noop
    (ItemFetcher.mk [(4, Tracker.mk 4 (some 2) 1 [3] true [(4, ⟨1, 0⟩)])] 1)
    [1, 2, 3] 4 (Tracker.mk 4 (some 2) 1 [3] true [(4, ⟨1, 0⟩)]) 1 2
    (by decide) (by decide) (by decide)
  exact ⟨by decide, h.1, h.2⟩

/-- C6: for a tracker in the Awaiting state, timer expiry is exactly the
`doesntHave` transition for the awaited peer; after the advance a late
negative for the superseded peer is ignored, and a tracker left with no
awaited peer has no armed timer. -/
theorem timeout_equals_doesntHave_current (t : Tracker) (p : Peer)
    (ps : List Peer) (hcur : t.mLastAskedPeer = some p)
    (_harmed : t.mTimerArmed = true) :
    t.timeoutExpiry ps = t.doesntHave p ps ∧
    (((t.doesntHave p ps).1).mLastAskedPeer ≠ some p →
      ((t.doesntHave p ps).1).doesntHave p ps = ((t.doesntHave p ps).1, [])) ∧
    (((t.doesntHave p ps).1).mLastAskedPeer = none →
      ((t.doesntHave p ps).1).mTimerArmed = false) := by
  have hd : t.doesntHave p ps = t.tryNextPeer ps := by
    unfold Tracker.doesntHave
    rw [if_pos hcur]
  refine ⟨?_, ?_, ?_⟩
  · rw [hd]; rfl
  · intro hne
    exact doesntHave_not_current _ p ps hne
  · intro hidle
    rw [hd] at hidle ⊢
    exact tryNextPeer_idle_timer t ps hidle

/-- C6 witness: a tracker awaiting peer 1 with peer 2 still queued; timeout
advances exactly as a negative from peer 1 would, and the stale negative
for peer 1 is then ignored. -/
theorem timeout_equals_doesntHave_current_witness :
    ((Tracker.mk 9 (some 1) 1 [2] true []).mLastAskedPeer = some 1) ∧
    ((Tracker.mk 9 (some 1) 1 [2] true []).mTimerArmed = true) ∧
    ((Tracker.mk 9 (some 1) 1 [2] true []).timeoutExpiry [1, 2] =
      (Tracker.mk 9 (some 1) 1 [2] true []).doesntHave 1 [1, 2]) ∧
    ((((Tracker.mk 9 (some 1) 1 [2] true []).doesntHave 1
        [1, 2]).1).mLastAskedPeer ≠ some 1 →
      (((Tracker.mk 9 (some 1) 1 [2] true []).doesntHave 1
        [1, 2]).1).doesntHave 1 [1, 2] =
        (((Tracker.mk 9 (some 1) 1 [2] true []).doesntHave 1 [1, 2]).1,
          [])) := by
  have h := timeout_equals_doesntHave_current
    (Tracker.mk 9 (some 1) 1 [2] true []) 1 [1, 2] (by decide) (by decide)
  exact ⟨by decide, by decide, h.1, h.2.1⟩

theorem feedNegatives_succ (ps : List Peer) (n : Nat) (t : Tracker)
    (p : Peer) (hla : t.mLastAskedPeer = some p) :
    feedNegatives ps (n + 1) t =
      ((feedNegatives ps n (t.doesntHave p ps).1).1,
       (t.doesntHave p ps).2 ++
         (feedNegatives ps n (t.doesntHave p ps).1).2) := by
  simp [feedNegatives, hla]

theorem feedNegatives_drain (ps : List Peer) (l : List Peer) :
    ∀ (t : Tracker) (p : Peer), t.mLastAskedPeer = some p →
      t.mPeersToAsk = l →
      askedPeers (feedNegatives ps l.length t).2 = l ∧
      Event.retryReset ∉ (feedNegatives ps l.length t).2 ∧
      ((feedNegatives ps l.length t).1).mPeersToAsk = [] ∧
      ((feedNegatives ps l.length t).1).mLastAskedPeer =
        some (lastOr p l) ∧
      ((feedNegatives ps l.length t).1).mNumListRebuild =
        t.mNumListRebuild ∧
      ((feedNegatives ps l.length t).1).mItemHash = t.mItemHash := by
  induction l with
  | nil =>
      intro t p hla hq
      refine ⟨?_, ?_, ?_, ?_, ?_, ?_⟩ <;>
        simp [feedNegatives, askedPeers, lastOr, hla, hq]
  | cons q l' ih =>
      intro t p hla hq
      have hd : t.doesntHave p ps =
          ({ t with mPeersToAsk := l'
                    mLastAskedPeer := some q
                    mTimerArmed := true },
           [Event.askPeer q t.mItemHash, Event.retryAttempt]) := by
        simp [Tracker.doesntHave, hla, Tracker.tryNextPeer, hq]
      have hstep := feedNegatives_succ ps l'.length t p hla
      rw [hd] at hstep
      obtain ⟨a1, a2, a3, a4, a5, a6⟩ := ih
        ({ t with mPeersToAsk := l'
                  mLastAskedPeer := some q
                  mTimerArmed := true }) q rfl rfl
      have hlen : (q :: l').length = l'.length + 1 := rfl
      rw [hlen, hstep]
      refine ⟨?_, ?_, a3, ?_, a5, a6⟩
      · rw [askedPeers_append, a1]
        simp [askedPeers]
      · intro hmem
        rw [List.mem_append] at hmem
        cases hmem with
        | inl hmem => simp at hmem
        | inr hmem => exact a2 hmem
      · rw [a4]
        rfl

theorem feedNegatives_rollover (q : Peer) (qs : List Peer) (t : Tracker)
    (p : Peer) (hla : t.mLastAskedPeer = some p) (hq : t.mPeersToAsk = []) :
    feedNegatives (q :: qs) 1 t =
      ({ t with mPeersToAsk := qs
                mNumListRebuild := t.mNumListRebuild + 1
                mLastAskedPeer := some q
                mTimerArmed := true },
       [Event.retryReset, Event.askPeer q t.mItemHash,
        Event.retryAttempt]) := by
  rw [feedNegatives_succ (q :: qs) 0 t p hla]
  simp [feedNegatives, Tracker.doesntHave, hla, Tracker.tryNextPeer, hq]

/-- C3: driving a fresh tracker over the fixed peer set `p :: rest`, with
every asked peer answering negatively, asks each peer of the set exactly
once, in the insertion order of the refilled queue, with no reset signal and
no rebuild-counter change during the cycle; the next negative response then
increments the rebuild counter, fires the reset signal and restarts the
cycle by asking the first peer again. -/
theorem retry_cycle_asks_each_peer_once (h : Hash) (p : Peer)
    (rest : List Peer) :
    askedPeers (((Tracker.make h).tryNextPeer (p :: rest)).2 ++
        (feedNegatives (p :: rest) rest.length
          ((Tracker.make h).tryNextPeer (p :: rest)).1).2) = p :: rest ∧
    Event.retryReset ∉
      (feedNegatives (p :: rest) rest.length
        ((Tracker.make h).tryNextPeer (p :: rest)).1).2 ∧
    (((Tracker.make h).tryNextPeer (p :: rest)).1).mNumListRebuild = 1 ∧
    ((feedNegatives (p :: rest) rest.length
        ((Tracker.make h).tryNextPeer (p :: rest)).1).1).mNumListRebuild
      = 1 ∧
    ((feedNegatives (p :: rest) 1
        ((feedNegatives (p :: rest) rest.length
          ((Tracker.make h).tryNextPeer (p :: rest)).1).1)).1).mNumListRebuild
      = 2 ∧
    (feedNegatives (p :: rest) 1
        ((feedNegatives (p :: rest) rest.length
          ((Tracker.make h).tryNextPeer (p :: rest)).1).1)).2 =
      [Event.retryReset, Event.askPeer p h, Event.retryAttempt] := by
  have hs1 : (Tracker.make h).tryNextPeer (p :: rest) =
      (⟨h, some p, 1, rest, true, []⟩,
       [Event.retryReset, Event.askPeer p h, Event.retryAttempt]) := rfl
  obtain ⟨a1, a2, a3, a4, a5, a6⟩ :=
    feedNegatives_drain (p :: rest) rest
      (⟨h, some p, 1, rest, true, []⟩ : Tracker) p rfl rfl
  have hroll := feedNegatives_rollover p rest
    ((feedNegatives (p :: rest) rest.length
      (⟨h, some p, 1, rest, true, []⟩ : Tracker)).1) (lastOr p rest) a4 a3
  rw [hs1]
  refine ⟨?_, a2, rfl, a5, ?_, ?_⟩
  · rw [askedPeers_append, a1]
    simp [askedPeers]
  · rw [hroll]
    rw [show ((feedNegatives (p :: rest) rest.length
        (⟨h, some p, 1, rest, true, []⟩ : Tracker)).1).mNumListRebuild = 1
      from a5]
  · rw [hroll, a6]

/-- C9: `doesntHave` and `recv` for a hash with no registered tracker are
complete no-ops: same registry state, same counter, no event, no error. -/
theorem unknown_hash_noop (f : ItemFetcher) (ps : List Peer) (H : Hash)
    (p : Peer) (hf : findTracker f.mTrackers H = none) :
    f.doesntHave ps H p = (f, []) ∧ f.recv H = (f, []) := by
  constructor
  · simp [ItemFetcher.doesntHave, hf]
  · simp [ItemFetcher.recv, hf]

/-- C9 witness: on a registry tracking only hash 4, `doesntHave` and `recv`
for the unknown hash 6 change nothing. -/
theorem unknown_hash_noop_witness :
    (findTracker (ItemFetcher.mk
        [(4, Tracker.mk 4 none 0 [] false [(4, ⟨1, 0⟩)])] 1).mTrackers 6 =
      none) ∧
    (ItemFetcher.mk
        [(4, Tracker.mk 4 none 0 [] false [(4, ⟨1, 0⟩)])] 1).doesntHave
        [1] 6 1 =
      (ItemFetcher.mk [(4, Tracker.mk 4 none 0 [] false [(4, ⟨1, 0⟩)])] 1,
        []) ∧
    (ItemFetcher.mk
        [(4, Tracker.mk 4 none 0 [] false [(4, ⟨1, 0⟩)])] 1).recv 6 =
      (ItemFetcher.mk [(4, Tracker.mk 4 none 0 [] false [(4, ⟨1, 0⟩)])] 1,
        []) := by
  have h := unknown_hash_noop
    (ItemFetcher.mk [(4, Tracker.mk 4 none 0 [] false [(4, ⟨1, 0⟩)])] 1)
    [1] 6 1 (by decide)
  exact ⟨by decide, h.1, h.2⟩

/-- The P5 example: envelopes at slots 3, 5 and 9 queued under hash 7. -/
def gcExampleFetcher : ItemFetcher :=
  { mTrackers := [(7, { mItemHash := 7
                        mLastAskedPeer := none
                        mNumListRebuild := 0
                        mPeersToAsk := []
                        mTimerArmed := false
                        mWaitingEnvelopes :=
                          [(7, ⟨3, 0⟩), (7, ⟨5, 0⟩), (7, ⟨9, 0⟩)] })]
    mItemMapSize := 3 }

/-- C4: `stopFetchingBelow s` removes from each tracker exactly the pending
envelopes with slot index strictly below `s` (`clearEnvelopesBelow`
returning whether any envelope remains), destroys every tracker left empty,
and decrements the shared counter by the number of envelopes dropped; on the
P5 example (slots 3, 5, 9 under hash 7), GC at slot 6 leaves only the
slot-9 envelope and a following GC at slot 10 destroys the tracker. -/
theorem stopFetchingBelow_gc (f : ItemFetcher) (s : Nat) (H : Hash)
    (t : Tracker) (hnd : keysNodup f.mTrackers)
    (hf : findTracker f.mTrackers H = some t) :
    ((t.clearEnvelopesBelow s).2).mWaitingEnvelopes =
      t.mWaitingEnvelopes.filter (fun pe => decide (s ≤ pe.2.slotIndex)) ∧
    ((t.clearEnvelopesBelow s).1 =
      !(t.mWaitingEnvelopes.filter
          (fun pe => decide (s ≤ pe.2.slotIndex))).isEmpty) ∧
    (findTracker (f.stopFetchingBelow s).mTrackers H =
      if (t.mWaitingEnvelopes.filter
            (fun pe => decide (s ≤ pe.2.slotIndex))).isEmpty
      then none else some (t.clearEnvelopesBelow s).2) ∧
    ((f.stopFetchingBelow s).mItemMapSize =
      f.mItemMapSize -
        ((f.totalEnvCount : Int) -
          ((f.stopFetchingBelow s).totalEnvCount : Int))) ∧
    (findTracker (gcExampleFetcher.stopFetchingBelow 6).mTrackers 7 =
      some { mItemHash := 7
             mLastAskedPeer := none
             mNumListRebuild := 0
             mPeersToAsk := []
             mTimerArmed := false
             mWaitingEnvelopes := [(7, ⟨9, 0⟩)] } ∧
     ((gcExampleFetcher.stopFetchingBelow 6).stopFetchingBelow
        10).isFetching 7 = false ∧
     (gcExampleFetcher.stopFetchingBelow 6).mItemMapSize = 1 ∧
     ((gcExampleFetcher.stopFetchingBelow 6).stopFetchingBelow
        10).mItemMapSize = 0) := by
  refine ⟨rfl, rfl, ?_, rfl, by decide⟩
  rw [stopFetchingBelow_trackers]
  rw [findTracker_gcKept f.mTrackers s H t hnd hf]
  cases hrem : (t.mWaitingEnvelopes.filter
      (fun pe => decide (s ≤ pe.2.slotIndex))).isEmpty with
  | true =>
      have hw : (t.clearEnvelopesBelow s).2.hasWaitingEnvelopes = false := by
        simp [Tracker.hasWaitingEnvelopes, Tracker.clearEnvelopesBelow, hrem]
      rw [hw]
      simp
  | false =>
      have hw : (t.clearEnvelopesBelow s).2.hasWaitingEnvelopes = true := by
        simp [Tracker.hasWaitingEnvelopes, Tracker.clearEnvelopesBelow, hrem]
      rw [hw]
      simp

/-- C4 witness: instantiated on the P5 example itself. -/
theorem stopFetchingBelow_gc_witness :
    keysNodup gcExampleFetcher.mTrackers ∧
    (findTracker (gcExampleFetcher.stopFetchingBelow 6).mTrackers 7 =
      if ((Tracker.mk 7 none 0 [] false
            [(7, ⟨3, 0⟩), (7, ⟨5, 0⟩), (7, ⟨9, 0⟩)]).mWaitingEnvelopes.filter
          (fun pe => decide (6 ≤ pe.2.slotIndex))).isEmpty
      then none
      else some ((Tracker.mk 7 none 0 [] false
        [(7, ⟨3, 0⟩), (7, ⟨5, 0⟩), (7, ⟨9, 0⟩)]).clearEnvelopesBelow 6).2) ∧
    ((gcExampleFetcher.stopFetchingBelow 6).mItemMapSize =
      gcExampleFetcher.mItemMapSize -
        ((gcExampleFetcher.totalEnvCount : Int) -
          ((gcExampleFetcher.stopFetchingBelow 6).totalEnvCount : Int))) := by
  have h := stopFetchingBelow_gc gcExampleFetcher 6 7
    (Tracker.mk 7 none 0 [] false [(7, ⟨3, 0⟩), (7, ⟨5, 0⟩), (7, ⟨9, 0⟩)])
    (by decide) (by decide)
  exact ⟨by decide, h.2.2.1, h.2.2.2.1⟩

/-- C7: `fetch(H, e)` always increments the shared counter by exactly one;
if a tracker for `H` exists it only receives `listen(e)` and no event is
emitted; otherwise the freshly created tracker is registered after
`listen(e)` and one immediate `tryNextPeer` step whose events are emitted —
so a peer-ask goes out at once whenever the peer set is non-empty. -/
theorem fetch_behavior (f : ItemFetcher) (ps : List Peer) (H : Hash)
    (e : SCPEnvelope) :
    ((f.fetch ps H e).1.mItemMapSize = f.mItemMapSize + 1) ∧
    (∀ t, findTracker f.mTrackers H = some t →
      (f.fetch ps H e).1.mTrackers =
        updateTracker f.mTrackers H (t.listen e) ∧
      (f.fetch ps H e).2 = []) ∧
    (findTracker f.mTrackers H = none →
      (f.fetch ps H e).1.mTrackers =
        (H, (((Tracker.make H).listen e).tryNextPeer ps).1) :: f.mTrackers ∧
      (f.fetch ps H e).2 = (((Tracker.make H).listen e).tryNextPeer ps).2) ∧
    (findTracker f.mTrackers H = none → ∀ q qs, ps = q :: qs →
      Event.askPeer q H ∈ (f.fetch ps H e).2) := by
  refine ⟨?_, ?_, ?_, ?_⟩
  · cases hf : findTracker f.mTrackers H with
    | some t => simp [ItemFetcher.fetch, hf]
    | none => simp [ItemFetcher.fetch, hf]
  · intro t hf
    constructor <;> simp [ItemFetcher.fetch, hf]
  · intro hf
    constructor <;> simp [ItemFetcher.fetch, hf]
  · intro hf q qs hps
    subst hps
    simp [ItemFetcher.fetch, hf, Tracker.tryNextPeer, Tracker.listen,
      Tracker.make]

/-- C7 witness: on an empty registry with peer set `[8]`, fetching hash 2
issues the ask for peer 8 at once and bumps the counter to one. -/
theorem fetch_behavior_witness :
    (findTracker (ItemFetcher.empty 0).mTrackers 2 = none) ∧
    ((ItemFetcher.empty 0).fetch [8] 2 ⟨1, 0⟩).1.mItemMapSize = 0 + 1 ∧
    Event.askPeer 8 2 ∈ ((ItemFetcher.empty 0).fetch [8] 2 ⟨1, 0⟩).2 := by
  have h := fetch_behavior (ItemFetcher.empty 0) [8] 2 ⟨1, 0⟩
  exact ⟨by decide, h.1, h.2.2.2 (by decide) 8 [] rfl⟩

/-- C8: if a registry's shared counter equals its queued-envelope total
(as on a fresh registry), then after any sequence of `fetch` / `recv` /
`stopFetchingBelow` / `doesntHave` operations the counter still equals the
sum, across all its live trackers, of their queued-envelope counts. -/
theorem counter_equals_total (f : ItemFetcher) (ops : List Op)
    (hnd : keysNodup f.mTrackers)
    (hinv : f.mItemMapSize = (f.totalEnvCount : Int)) :
    (f.runOps ops).mItemMapSize = ((f.runOps ops).totalEnvCount : Int) := by
  have hd := runOps_drift ops f hnd
  unfold ItemFetcher.drift at hd
  omega

/-- C8 witness: fresh registry, two fetches of hash 5 and a GC pass. -/
theorem counter_equals_total_witness :
    keysNodup (ItemFetcher.empty 0).mTrackers ∧
    (ItemFetcher.empty 0).mItemMapSize =
      ((ItemFetcher.empty 0).totalEnvCount : Int) ∧
    ((ItemFetcher.empty 0).runOps
        [Op.fetch [1] 5 ⟨3, 0⟩, Op.fetch [1] 5 ⟨9, 0⟩,
         Op.stopFetchingBelow 4]).mItemMapSize =
      (((ItemFetcher.empty 0).runOps
        [Op.fetch [1] 5 ⟨3, 0⟩, Op.fetch [1] 5 ⟨9, 0⟩,
         Op.stopFetchingBelow 4]).totalEnvCount : Int) := by
  refine ⟨by decide, by decide, ?_⟩
  exact counter_equals_total (ItemFetcher.empty 0)
    [Op.fetch [1] 5 ⟨3, 0⟩, Op.fetch [1] 5 ⟨9, 0⟩, Op.stopFetchingBelow 4]
    (by decide) (by decide)

/-- C10: the shared counter is mutated only by relative deltas: over any
run the net counter change equals the net change of the registry's own
queued-envelope total; shifting the starting value shifts the whole run's
counter by the same constant and leaves the trackers untouched, and the
counter's absolute value can exceed the registry's own sum. -/
theorem counter_shared_relative_only (f : ItemFetcher) (ops : List Op)
    (c : Int) (hnd : keysNodup f.mTrackers) :
    ((f.runOps ops).mItemMapSize - f.mItemMapSize =
      ((f.runOps ops).totalEnvCount : Int) - (f.totalEnvCount : Int)) ∧
    ((ItemFetcher.runOps { f with mItemMapSize := f.mItemMapSize + c }
        ops).mItemMapSize = (f.runOps ops).mItemMapSize + c) ∧
    ((ItemFetcher.runOps { f with mItemMapSize := f.mItemMapSize + c }
        ops).mTrackers = (f.runOps ops).mTrackers) ∧
    (∃ g : ItemFetcher, (g.totalEnvCount : Int) < g.mItemMapSize) := by
  refine ⟨?_, ?_, ?_, ⟨ItemFetcher.empty 1, by decide⟩⟩
  · have hd := runOps_drift ops f hnd
    unfold ItemFetcher.drift at hd
    omega
  · rw [runOps_shift]
  · rw [runOps_shift]

/-- C10 witness: a run over a registry whose counter starts at 100 (other
registries' envelopes): the net change still matches the registry's own
total change. -/
theorem counter_shared_relative_only_witness :
    keysNodup (ItemFetcher.empty 100).mTrackers ∧
    ((ItemFetcher.empty 100).runOps
        [Op.fetch [1] 5 ⟨3, 0⟩, Op.recv 5]).mItemMapSize -
      (ItemFetcher.empty 100).mItemMapSize =
      ((((ItemFetcher.empty 100).runOps
          [Op.fetch [1] 5 ⟨3, 0⟩, Op.recv 5]).totalEnvCount : Int) -
        ((ItemFetcher.empty 100).totalEnvCount : Int)) := by
  have h := counter_shared_relative_only (ItemFetcher.empty 100)
    [Op.fetch [1] 5 ⟨3, 0⟩, Op.recv 5] 7 (by decide)
  exact ⟨by decide, h.1⟩

end ItemFetcherSpec
